import Mathlib

/-!
Verification of the AutoPas auto-tuning pairwise interaction engine
(containers, octree traversals, verlet-cluster lists, traversal selector,
configuration distribution) against its natural-language specification.

Shallow embedding: positions are rational 3-vectors, particle ownership is
the three-state tag from `OwnershipState.h`, and each C++ function under
scrutiny is translated into an executable Lean definition over these types.
-/

namespace AutoPasVerify

/-- Ownership tag of a particle, from `src/autopas/particles/OwnershipState.h`
(`dummy = 0`, `owned = 1`, `halo = 2`). -/
inductive OwnershipState where
  | dummy : OwnershipState
  | owned : OwnershipState
  | halo : OwnershipState
deriving DecidableEq, Repr

/-- A three-component vector of rationals, modelling `std::array<double, 3>`. -/
structure Vec3 where
  x : ℚ
  y : ℚ
  z : ℚ
deriving DecidableEq, Repr

/-- A particle: 64-bit id, position, velocity and ownership tag.  The id is a
natural number (the C++ `unsigned long` id); velocity stands in for all
attributes that the container never rewrites. -/
structure Particle where
  pid : Nat
  pos : Vec3
  vel : Vec3
  ownership : OwnershipState
deriving DecidableEq, Repr

/-- `utils::inBox(r, lo, hi)`: componentwise `lo ≤ r < hi`. -/
def inBox (r lo hi : Vec3) : Bool :=
  decide (lo.x ≤ r.x) && decide (r.x < hi.x) &&
  decide (lo.y ≤ r.y) && decide (r.y < hi.y) &&
  decide (lo.z ≤ r.z) && decide (r.z < hi.z)

theorem inBox_iff (r lo hi : Vec3) :
    inBox r lo hi = true ↔
      (lo.x ≤ r.x ∧ r.x < hi.x) ∧ (lo.y ≤ r.y ∧ r.y < hi.y) ∧
        (lo.z ≤ r.z ∧ r.z < hi.z) := by
  simp [inBox, and_assoc]

/-! ## Octree leaf node: the splitting predicate (`OctreeLeafNode::insert`) -/

/-- The fixed split threshold from the `Octree` constructor
(`int unsigned treeSplitThreshold = 16;` in `Octree.h`). -/
def treeSplitThreshold : Nat := 16

/-- State of an octree leaf node: its particle bucket and box, plus the
container-wide parameters that `OctreeNodeInterface` carries. -/
structure LeafState where
  particles : List Particle
  boxMin : Vec3
  boxMax : Vec3
  interactionLength : ℚ
  splitThreshold : Nat
deriving Repr

/-- Result of `OctreeLeafNode::insert`: either the particle was appended to
the leaf (no split), or the leaf turned itself into a new inner node to which
first the new particle and then all cached particles are handed over. -/
inductive InsertResult where
  | appended (particles : List Particle) : InsertResult
  | split (redistributed : List Particle) : InsertResult
deriving DecidableEq, Repr

/-- `anyNewDimSmallerThanMinSize` in `OctreeLeafNode::insert`: some halved
box dimension of the would-be children is below the interaction length. -/
def anyNewDimSmallerThanMinSize (s : LeafState) : Bool :=
  decide ((s.boxMax.x - s.boxMin.x) / 2 < s.interactionLength) ||
    decide ((s.boxMax.y - s.boxMin.y) / 2 < s.interactionLength) ||
    decide ((s.boxMax.z - s.boxMin.z) / 2 < s.interactionLength)

/-- The branch condition of `OctreeLeafNode::insert`:
`(_particles.size() < _treeSplitThreshold) or anyNewDimSmallerThanMinSize`. -/
def leafInsertAppendCond (s : LeafState) : Bool :=
  decide (s.particles.length < s.splitThreshold) || anyNewDimSmallerThanMinSize s

/-- `OctreeLeafNode::insert(p)`: if the append condition holds, push `p` into
the leaf's bucket; otherwise split, handing `p` and then the cached particles
to a fresh inner node. -/
def leafInsert (s : LeafState) (p : Particle) : InsertResult :=
  if leafInsertAppendCond s then
    .appended (s.particles ++ [p])
  else
    .split (p :: s.particles)

/-- Whether `leafInsert` split the leaf. -/
def InsertResult.isSplit : InsertResult → Bool
  | .split _ => true
  | .appended _ => false

/-- C5: the leaf splits iff it already holds at least `treeSplitThreshold = 16`
particles and every halved box dimension is still at least the interaction
length; otherwise the particle is appended to the leaf's bucket. -/
theorem leafInsert_split_iff (s : LeafState) (p : Particle)
    (hthr : s.splitThreshold = treeSplitThreshold) :
    ((leafInsert s p).isSplit = true ↔
      16 ≤ s.particles.length ∧
        s.interactionLength ≤ (s.boxMax.x - s.boxMin.x) / 2 ∧
        s.interactionLength ≤ (s.boxMax.y - s.boxMin.y) / 2 ∧
        s.interactionLength ≤ (s.boxMax.z - s.boxMin.z) / 2) ∧
    ((leafInsert s p).isSplit = false →
      leafInsert s p = .appended (s.particles ++ [p])) := by
  rw [treeSplitThreshold] at hthr
  have hcond : leafInsertAppendCond s = false ↔
      16 ≤ s.particles.length ∧
        s.interactionLength ≤ (s.boxMax.x - s.boxMin.x) / 2 ∧
        s.interactionLength ≤ (s.boxMax.y - s.boxMin.y) / 2 ∧
        s.interactionLength ≤ (s.boxMax.z - s.boxMin.z) / 2 := by
    simp only [leafInsertAppendCond, anyNewDimSmallerThanMinSize,
      Bool.or_eq_false_iff, decide_eq_false_iff_not, not_lt]
    constructor
    · rintro ⟨hlen, ⟨hx, hy⟩, hz⟩
      exact ⟨by omega, hx, hy, hz⟩
    · rintro ⟨hlen, hx, hy, hz⟩
      exact ⟨by omega, ⟨hx, hy⟩, hz⟩
  rcases h : leafInsertAppendCond s with _ | _
  · have hsplit : leafInsert s p = .split (p :: s.particles) := by
      simp [leafInsert, h]
    constructor
    · rw [hsplit]
      exact iff_of_true rfl (hcond.mp h)
    · intro hfalse
      rw [hsplit] at hfalse
      simp [InsertResult.isSplit] at hfalse
  · have happ : leafInsert s p = .appended (s.particles ++ [p]) := by
      simp [leafInsert, h]
    constructor
    · rw [happ]
      refine iff_of_false (by simp [InsertResult.isSplit]) ?_
      intro hc
      have hfc := hcond.mpr hc
      rw [hfc] at h
      exact Bool.false_ne_true h
    · intro _
      exact happ

/-- Witness for C5: a concrete leaf with 16 particles in a large box splits. -/
theorem leafInsert_split_iff_witness :
    (leafInsert
      ⟨List.replicate 16 ⟨0, ⟨0, 0, 0⟩, ⟨0, 0, 0⟩, OwnershipState.owned⟩,
        ⟨0, 0, 0⟩, ⟨8, 8, 8⟩, 1, 16⟩
      ⟨0, ⟨0, 0, 0⟩, ⟨0, 0, 0⟩, OwnershipState.owned⟩).isSplit = true := by
  have h := leafInsert_split_iff
    ⟨List.replicate 16 ⟨0, ⟨0, 0, 0⟩, ⟨0, 0, 0⟩, OwnershipState.owned⟩,
      ⟨0, 0, 0⟩, ⟨8, 8, 8⟩, 1, 16⟩
    ⟨0, ⟨0, 0, 0⟩, ⟨0, 0, 0⟩, OwnershipState.owned⟩ rfl
  exact h.1.mpr ⟨by simp, by norm_num, by norm_num, by norm_num⟩

/-! ## VerletClusterLists validity state and `iteratePairwise` (C9) -/

/-- `VerletClusterLists::ValidityState`. -/
inductive ValidityState where
  | invalid : ValidityState
  | cellsValidListsInvalid : ValidityState
  | cellsAndListsValid : ValidityState
deriving DecidableEq, Repr

/-- Outcome of a call that can raise an `ExceptionHandler::exception`. -/
inductive CallResult (α : Type) where
  | ok (value : α) : CallResult α
  | exception (message : String) : CallResult α
deriving Repr

/-- Whether the call raised. -/
def CallResult.isException {α : Type} : CallResult α → Bool
  | .exception _ => true
  | .ok _ => false

/-- `VerletClusterLists::iteratePairwise`, reduced to its control flow: raise
iff `_isValid == ValidityState::cellsAndListsValid`; then raise if the
traversal is not a cluster traversal; otherwise run the traversal. -/
def vclIteratePairwise (isValid : ValidityState) (isClusterTraversal : Bool) :
    CallResult Unit :=
  if isValid = ValidityState.cellsAndListsValid then
    .exception "VerletClusterLists::iteratePairwise(): Trying to do a pairwise iteration, even though verlet lists are not valid."
  else if isClusterTraversal then
    .ok ()
  else
    .exception "Trying to use a traversal of wrong type in VerletClusterLists::iteratePairwise."

/-- C9: with a cluster traversal, `iteratePairwise` raises iff the validity
state equals `cellsAndListsValid`; for `invalid` and `cellsValidListsInvalid`
the traversal is run. -/
theorem vclIteratePairwise_guard (isValid : ValidityState) :
    ((vclIteratePairwise isValid true).isException = true ↔
      isValid = ValidityState.cellsAndListsValid) ∧
    (isValid = ValidityState.invalid ∨
        isValid = ValidityState.cellsValidListsInvalid →
      vclIteratePairwise isValid true = .ok ()) := by
  cases isValid <;> simp [vclIteratePairwise, CallResult.isException]

/-- Witness for C9: at the concrete state `cellsValidListsInvalid` the call
proceeds, at `cellsAndListsValid` it raises. -/
theorem vclIteratePairwise_guard_witness :
    vclIteratePairwise ValidityState.cellsValidListsInvalid true = .ok () ∧
      (vclIteratePairwise ValidityState.cellsAndListsValid true).isException
        = true := by
  refine ⟨(vclIteratePairwise_guard ValidityState.cellsValidListsInvalid).2
    (Or.inr rfl), ?_⟩
  exact (vclIteratePairwise_guard ValidityState.cellsAndListsValid).1.mpr rfl

/-! ## TraversalSelector: `selectOptimalTraversal` and the three reductions (C2) -/

/-- `std::numeric_limits<long>::max()`, the scan initialiser in
`findFastest{Abs,Mean,Median}Traversal`. -/
def longMax : Nat := 9223372036854775807

/-- `TraversalSelector::TimeMeasurement`: a (traversal option, elapsed time)
record; traversal options are encoded as naturals, times are the nonnegative
nanosecond counts stored in the C++ `long`. -/
structure TimeMeasurement where
  traversal : Nat
  time : Nat
deriving DecidableEq, Repr

/-- `SelectorStrategy` from `options/SelectorStrategie.h`. -/
inductive SelectorStrategy where
  | fastestAbs : SelectorStrategy
  | fastestMean : SelectorStrategy
  | fastestMedian : SelectorStrategy
deriving DecidableEq, Repr

/-- One step of the strict-less argmin scan that all three `findFastest*`
functions perform (`if (time < optimalTraversalTime) { ... }`). -/
def scanStep {α : Type} (f : α → Nat) (acc : Option α × Nat) (a : α) :
    Option α × Nat :=
  if f a < acc.2 then (some a, f a) else acc

/-- The strict-less argmin scan over a list, started at `init`
(`long optimalTraversalTime = std::numeric_limits<long>::max();`). -/
def argminScan {α : Type} (f : α → Nat) (init : Nat) (l : List α) :
    Option α × Nat :=
  l.foldl (scanStep f) (none, init)

theorem foldl_scanStep_snd_le {α : Type} (f : α → Nat) (l : List α) :
    ∀ acc : Option α × Nat, (l.foldl (scanStep f) acc).2 ≤ acc.2 ∧
      ∀ a ∈ l, (l.foldl (scanStep f) acc).2 ≤ f a := by
  induction l with
  | nil =>
    intro acc
    exact ⟨le_refl _, by simp⟩
  | cons b l ih =>
    intro acc
    have h := ih (scanStep f acc b)
    rw [List.foldl_cons]
    refine ⟨le_trans h.1 ?_, ?_⟩
    · by_cases hb : f b < acc.2
      · simp only [scanStep, if_pos hb]
        omega
      · simp only [scanStep, if_neg hb]
        exact le_refl _
    · intro a ha
      rcases List.mem_cons.mp ha with rfl | ha'
      · refine le_trans h.1 ?_
        by_cases hb : f a < acc.2
        · simp only [scanStep, if_pos hb]
          omega
        · simp only [scanStep, if_neg hb]
          omega
      · exact h.2 a ha'

theorem foldl_scanStep_result {α : Type} (f : α → Nat) (l : List α) :
    ∀ acc : Option α × Nat, l.foldl (scanStep f) acc = acc ∨
      ∃ a ∈ l, l.foldl (scanStep f) acc = (some a, f a) := by
  induction l with
  | nil =>
    intro acc
    exact Or.inl rfl
  | cons b l ih =>
    intro acc
    rw [List.foldl_cons]
    rcases ih (scanStep f acc b) with h | ⟨a, ha, h⟩
    · rw [h]
      by_cases hb : f b < acc.2
      · exact Or.inr ⟨b, List.mem_cons_self b l, by simp [scanStep, hb]⟩
      · exact Or.inl (by simp [scanStep, hb])
    · exact Or.inr ⟨a, List.mem_cons_of_mem _ ha, h⟩

/-- When some element beats the initial value, the argmin scan commits an
element achieving the minimum of `f` over the list. -/
theorem argminScan_spec {α : Type} (f : α → Nat) (init : Nat) (l : List α)
    (hl : ∃ a ∈ l, f a < init) :
    ∃ a ∈ l, (argminScan f init l).1 = some a ∧
      (argminScan f init l).2 = f a ∧ ∀ b ∈ l, f a ≤ f b := by
  obtain ⟨a0, ha0, ha0lt⟩ := hl
  have hle := foldl_scanStep_snd_le f l (none, init)
  rcases foldl_scanStep_result f l (none, init) with h | ⟨a, ha, h⟩
  · exfalso
    have : (l.foldl (scanStep f) (none, init)).2 ≤ f a0 := hle.2 a0 ha0
    rw [h] at this
    omega
  · refine ⟨a, ha, ?_, ?_, ?_⟩
    · rw [argminScan, h]
    · rw [argminScan, h]
    · intro b hb
      have := hle.2 b hb
      rw [h] at this
      exact this

/-- The sample list recorded for one traversal option: the times of all
measurements in `_traversalTimes` carrying that option, in recording order
(the bucket `measurementsMap[t.traversal]`). -/
def samplesOf (ms : List TimeMeasurement) (t : Nat) : List Nat :=
  (ms.filter (fun m => m.traversal == t)).map (fun m => m.time)

/-- The traversal options that occur in the measurement buffer (the key set
of `measurementsMap`). -/
def measuredTraversals (ms : List TimeMeasurement) : List Nat :=
  (ms.map (fun m => m.traversal)).dedup

/-- Minimum of a list of naturals with a default for the empty list;
mirrors the scan initialised at `longMax`. -/
def listMinD (d : Nat) : List Nat → Nat
  | [] => d
  | a :: l => min a (listMinD d l)

theorem listMinD_le_mem (d : Nat) (l : List Nat) (a : Nat) (ha : a ∈ l) :
    listMinD d l ≤ a := by
  induction l with
  | nil => cases ha
  | cons b l ih =>
    rcases List.mem_cons.mp ha with rfl | ha'
    · exact min_le_left _ _
    · exact le_trans (min_le_right _ _) (ih ha')

theorem le_listMinD (d g : Nat) (l : List Nat) (hd : g ≤ d)
    (hl : ∀ a ∈ l, g ≤ a) : g ≤ listMinD d l := by
  induction l with
  | nil => exact hd
  | cons b l ih =>
    exact le_min (hl b (List.mem_cons_self b l))
      (ih fun a ha => hl a (List.mem_cons_of_mem _ ha))

/-- The per-traversal reduction of a sample list: `fastestAbs` keeps the
minimum, `fastestMean` computes `std::accumulate(...) / size` in integer
(`long`) division, `fastestMedian` sorts and takes the element at index
`size / 2`. -/
def reduceSamples : SelectorStrategy → List Nat → Nat
  | .fastestAbs, s => listMinD longMax s
  | .fastestMean, s => s.sum / s.length
  | .fastestMedian, s =>
      (s.mergeSort (fun a b => decide (a ≤ b))).getD (s.length / 2) 0

/-- `TraversalSelector::findFastestAbsTraversal`: strict-less scan over the
raw measurements; the committed traversal is the one of the first measurement
achieving the minimal time. -/
def findFastestAbsTraversal (ms : List TimeMeasurement) : Option Nat :=
  ((argminScan (fun m => m.time) longMax ms).1).map (fun m => m.traversal)

/-- `TraversalSelector::findFastestMeanTraversal`: bucket the measurements by
traversal, reduce each bucket by the integer mean, scan for the strict-less
minimum. -/
def findFastestMeanTraversal (ms : List TimeMeasurement) : Option Nat :=
  (argminScan (fun t => reduceSamples .fastestMean (samplesOf ms t)) longMax
    (measuredTraversals ms)).1

/-- `TraversalSelector::findFastestMedianTraversal`: bucket by traversal,
sort each bucket, reduce to the element at index `size / 2`, scan for the
strict-less minimum. -/
def findFastestMedianTraversal (ms : List TimeMeasurement) : Option Nat :=
  (argminScan (fun t => reduceSamples .fastestMedian (samplesOf ms t)) longMax
    (measuredTraversals ms)).1

/-- `TraversalSelector::selectOptimalTraversal`: raise on an empty
measurement buffer, otherwise dispatch on the strategy and commit the scanned
winner (the sanity-check exception fires when nothing beat `longMax`). -/
def selectOptimalTraversal (strategy : SelectorStrategy)
    (ms : List TimeMeasurement) : CallResult Nat :=
  if ms.isEmpty then
    .exception "TraversalSelector: Trying to determine fastest traversal before measuring!"
  else
    let committed :=
      match strategy with
      | .fastestAbs => findFastestAbsTraversal ms
      | .fastestMean => findFastestMeanTraversal ms
      | .fastestMedian => findFastestMedianTraversal ms
    match committed with
    | some t => .ok t
    | none => .exception "TraversalSelector: Nothing was faster than max long! o_O"

theorem mem_samplesOf (ms : List TimeMeasurement) (t s : Nat) :
    s ∈ samplesOf ms t ↔ ∃ m ∈ ms, m.traversal = t ∧ m.time = s := by
  simp only [samplesOf, List.mem_map, List.mem_filter, beq_iff_eq]
  constructor
  · rintro ⟨m, ⟨hm, ht⟩, rfl⟩
    exact ⟨m, hm, ht, rfl⟩
  · rintro ⟨m, hm, ht, rfl⟩
    exact ⟨m, ⟨hm, ht⟩, rfl⟩

theorem mem_measuredTraversals (ms : List TimeMeasurement) (t : Nat) :
    t ∈ measuredTraversals ms ↔ ∃ m ∈ ms, m.traversal = t := by
  simp [measuredTraversals, List.mem_dedup, List.mem_map]

theorem samplesOf_ne_nil {ms : List TimeMeasurement} {t : Nat}
    (ht : t ∈ measuredTraversals ms) : samplesOf ms t ≠ [] := by
  obtain ⟨m, hm, rfl⟩ := (mem_measuredTraversals ms t).mp ht
  have hmem : m.time ∈ samplesOf ms m.traversal :=
    (mem_samplesOf ms m.traversal m.time).mpr ⟨m, hm, rfl, rfl⟩
  intro h
  rw [h] at hmem
  cases hmem

theorem samplesOf_lt_longMax {ms : List TimeMeasurement}
    (hbound : ∀ m ∈ ms, m.time < longMax) {t s : Nat}
    (hs : s ∈ samplesOf ms t) : s < longMax := by
  obtain ⟨m, hm, _, rfl⟩ := (mem_samplesOf ms t s).mp hs
  exact hbound m hm

theorem reduceSamples_lt_longMax (strategy : SelectorStrategy)
    {ms : List TimeMeasurement} (hbound : ∀ m ∈ ms, m.time < longMax)
    {t : Nat} (ht : t ∈ measuredTraversals ms) :
    reduceSamples strategy (samplesOf ms t) < longMax := by
  have hne := samplesOf_ne_nil ht
  have hpos : 0 < (samplesOf ms t).length := List.length_pos.mpr hne
  cases strategy with
  | fastestAbs =>
    obtain ⟨s, hs⟩ := List.exists_mem_of_ne_nil _ hne
    calc reduceSamples .fastestAbs (samplesOf ms t) ≤ s :=
          listMinD_le_mem _ _ _ hs
      _ < longMax := samplesOf_lt_longMax hbound hs
  | fastestMean =>
    have hsum : (samplesOf ms t).sum ≤ (samplesOf ms t).length * (longMax - 1) := by
      have := List.sum_le_card_nsmul (samplesOf ms t) (longMax - 1)
        (fun s hs => by have := samplesOf_lt_longMax hbound hs; omega)
      simpa using this
    have hdiv : (samplesOf ms t).sum / (samplesOf ms t).length ≤ longMax - 1 := by
      calc (samplesOf ms t).sum / (samplesOf ms t).length
          ≤ (samplesOf ms t).length * (longMax - 1) / (samplesOf ms t).length :=
            Nat.div_le_div_right hsum
        _ = longMax - 1 := Nat.mul_div_cancel_left _ hpos
    exact lt_of_le_of_lt hdiv (by rw [longMax]; omega)
  | fastestMedian =>
    set s := samplesOf ms t with hsdef
    have hlen : (s.mergeSort (fun a b => decide (a ≤ b))).length = s.length :=
      List.length_mergeSort ..
    have hidx : s.length / 2 < (s.mergeSort (fun a b => decide (a ≤ b))).length := by
      rw [hlen]
      exact Nat.div_lt_self hpos (by norm_num)
    have hred : reduceSamples .fastestMedian s =
        (s.mergeSort (fun a b => decide (a ≤ b)))[s.length / 2] := by
      simp only [reduceSamples, List.getD_eq_getElem?_getD,
        List.getElem?_eq_getElem hidx, Option.getD_some]
    have hmem : (s.mergeSort (fun a b => decide (a ≤ b)))[s.length / 2] ∈ s :=
      (List.mergeSort_perm s _).mem_iff.mp (List.getElem_mem hidx)
    rw [hred]
    exact samplesOf_lt_longMax hbound hmem

/-- C2 (amended): on a non-empty measurement buffer whose times fit in a
`long`, `selectOptimalTraversal` commits a measured traversal whose reduced
time — minimum of its samples for `fastestAbs`, integer-division mean for
`fastestMean`, element at index `size / 2` of the sorted samples for
`fastestMedian` — is minimal among all measured traversals; on an empty
buffer it raises an exception. -/
theorem selectOptimalTraversal_spec (strategy : SelectorStrategy)
    (ms : List TimeMeasurement) (hne : ms ≠ [])
    (hbound : ∀ m ∈ ms, m.time < longMax) :
    (∃ t, selectOptimalTraversal strategy ms = .ok t ∧
      t ∈ measuredTraversals ms ∧
      ∀ u ∈ measuredTraversals ms,
        reduceSamples strategy (samplesOf ms t) ≤
          reduceSamples strategy (samplesOf ms u)) ∧
    (selectOptimalTraversal strategy []).isException = true := by
  constructor
  swap
  · cases strategy <;> rfl
  have hmsne : ms.isEmpty = false := by
    cases ms with
    | nil => exact absurd rfl hne
    | cons m l => rfl
  obtain ⟨m0, hm0⟩ := List.exists_mem_of_ne_nil ms hne
  have hkey0 : m0.traversal ∈ measuredTraversals ms :=
    (mem_measuredTraversals ms m0.traversal).mpr ⟨m0, hm0, rfl⟩
  cases strategy with
  | fastestAbs =>
    obtain ⟨mstar, hmem, hfst, _, hmin⟩ :=
      argminScan_spec (fun m => m.time) longMax ms ⟨m0, hm0, hbound m0 hm0⟩
    have hkey : mstar.traversal ∈ measuredTraversals ms :=
      (mem_measuredTraversals ms mstar.traversal).mpr ⟨mstar, hmem, rfl⟩
    refine ⟨mstar.traversal, ?_, hkey, ?_⟩
    · simp [selectOptimalTraversal, hmsne, findFastestAbsTraversal, hfst]
    · intro u hu
      have hstar_le : reduceSamples .fastestAbs (samplesOf ms mstar.traversal)
          ≤ mstar.time := by
        refine listMinD_le_mem _ _ _ ?_
        exact (mem_samplesOf ms mstar.traversal mstar.time).mpr
          ⟨mstar, hmem, rfl, rfl⟩
      have hu_ge : mstar.time ≤ reduceSamples .fastestAbs (samplesOf ms u) := by
        refine le_listMinD _ _ _ (le_of_lt (hbound mstar hmem)) ?_
        intro s hs
        obtain ⟨m, hm, _, rfl⟩ := (mem_samplesOf ms u s).mp hs
        exact hmin m hm
      exact le_trans hstar_le hu_ge
  | fastestMean =>
    obtain ⟨tstar, hmem, hfst, _, hmin⟩ :=
      argminScan_spec (fun t => reduceSamples .fastestMean (samplesOf ms t))
        longMax (measuredTraversals ms)
        ⟨m0.traversal, hkey0, reduceSamples_lt_longMax .fastestMean hbound hkey0⟩
    refine ⟨tstar, ?_, hmem, hmin⟩
    simp [selectOptimalTraversal, hmsne, findFastestMeanTraversal, hfst]
  | fastestMedian =>
    obtain ⟨tstar, hmem, hfst, _, hmin⟩ :=
      argminScan_spec (fun t => reduceSamples .fastestMedian (samplesOf ms t))
        longMax (measuredTraversals ms)
        ⟨m0.traversal, hkey0,
          reduceSamples_lt_longMax .fastestMedian hbound hkey0⟩
    refine ⟨tstar, ?_, hmem, hmin⟩
    simp [selectOptimalTraversal, hmsne, findFastestMedianTraversal, hfst]

/-- Witness for C2: on the concrete buffer
`[(traversal 0, 5 ns), (traversal 1, 3 ns)]` with the median strategy the
call commits a measured traversal of minimal reduced time. -/
theorem selectOptimalTraversal_spec_witness :
    ∃ t, selectOptimalTraversal SelectorStrategy.fastestMedian
        [⟨0, 5⟩, ⟨1, 3⟩] = .ok t ∧
      t ∈ measuredTraversals [⟨0, 5⟩, ⟨1, 3⟩] ∧
      ∀ u ∈ measuredTraversals [⟨0, 5⟩, ⟨1, 3⟩],
        reduceSamples SelectorStrategy.fastestMedian
            (samplesOf [⟨0, 5⟩, ⟨1, 3⟩] t) ≤
          reduceSamples SelectorStrategy.fastestMedian
            (samplesOf [⟨0, 5⟩, ⟨1, 3⟩] u) :=
  (selectOptimalTraversal_spec SelectorStrategy.fastestMedian
    [⟨0, 5⟩, ⟨1, 3⟩] (by decide) (by decide)).1

/-- C2 counterexample: the `fastestMean` reduction of the sample list
`[1, 2]` is the integer quotient `1`, which is not the arithmetic mean
`3/2`; the claim's "arithmetic mean" does not describe the code's
integer-division reduction. -/
theorem reduceSamples_mean_counterexample :
    reduceSamples SelectorStrategy.fastestMean [1, 2] = 1 ∧
      ((1 : ℚ) + 2) / 2 ≠ (1 : ℚ) := by
  constructor
  · rfl
  · norm_num

/-! ## Octree traversals: pair dispatch in `OTC18Traversal` and
`OTNaiveTraversal` (C1)

The owned leaves are modelled by their cached neighbour lists: `leaves` is
the vector `_ownedLeaves`, and `leaves[i]` holds the positions of the leaves
returned by `getNeighborLeaves()` for the leaf at position `i`.
`OTC18Traversal::assignIDs` gives the leaf at position `i` the ID
`startID + i`, so with `startID = 0` the ID of a leaf is its position. -/

/-- The `processCellPair` invocations of
`OTC18Traversal::traverseParticlePairs` over the owned leaves: for each leaf,
each cached neighbour is dispatched only under `leaf->getID() <
neighborLeaf->getID()`. -/
def otc18PairCalls (leaves : List (List Nat)) : List (Nat × Nat) :=
  (List.range leaves.length).flatMap fun i =>
    ((leaves.getD i []).filter (fun j => decide (i < j))).map (fun j => (i, j))

/-- The `processCellPair` invocations of
`OTNaiveTraversal::traverseParticlePairs`: every cached neighbour of every
leaf is dispatched (the `alreadyProcessed` bookkeeping is commented out in
the source). -/
def otNaivePairCalls (leaves : List (List Nat)) : List (Nat × Nat) :=
  (List.range leaves.length).flatMap fun i =>
    (leaves.getD i []).map (fun j => (i, j))

/-- The `processCell` invocations: one per leaf, in both traversals. -/
def otSelfCalls (leaves : List (List Nat)) : List Nat :=
  List.range leaves.length

/-- How often the functor is invoked on the unordered leaf pair `{a, b}`:
calls `(a, b)` plus calls `(b, a)`. -/
def pairCallCount (calls : List (Nat × Nat)) (a b : Nat) : Nat :=
  calls.count (a, b) + calls.count (b, a)

theorem count_flatMap {α β : Type} [BEq β] (f : α → List β)
    (l : List α) (b : β) :
    (l.flatMap f).count b = (l.map (fun a => (f a).count b)).sum := by
  induction l with
  | nil => rfl
  | cons a l ih => simp [List.count_append, ih]

theorem sum_map_range_eq_single (n a : Nat) (f : Nat → Nat) (ha : a < n)
    (hf : ∀ i, i ≠ a → f i = 0) :
    ((List.range n).map f).sum = f a := by
  induction n with
  | zero => omega
  | succ n ih =>
    rw [List.range_succ, List.map_append, List.sum_append]
    by_cases h : a = n
    · subst h
      have hz : ((List.range a).map f).sum = 0 := by
        refine List.sum_eq_zero ?_
        intro x hx
        obtain ⟨i, hi, rfl⟩ := List.mem_map.mp hx
        exact hf i (by have := List.mem_range.mp hi; omega)
      simp [hz]
    · have ha' : a < n := by omega
      rw [ih ha']
      have hn : f n = 0 := hf n (fun hn => h hn.symm)
      simp [hn]

theorem count_pair_map (i a b : Nat) (l : List Nat) :
    (l.map (fun j => (i, j))).count (a, b) =
      if i = a then l.count b else 0 := by
  induction l with
  | nil => simp
  | cons c l ih =>
    simp only [List.map_cons, List.count_cons, ih, Prod.mk.injEq]
    by_cases h : i = a
    · subst h
      by_cases h2 : b = c <;> simp [h2]
    · have hne : a ≠ i := fun hh => h hh.symm
      simp [h, hne]

theorem count_otc18PairCalls (leaves : List (List Nat)) (a b : Nat)
    (ha : a < leaves.length) :
    (otc18PairCalls leaves).count (a, b) =
      ((leaves.getD a []).filter (fun j => decide (a < j))).count b := by
  rw [otc18PairCalls, count_flatMap]
  rw [sum_map_range_eq_single leaves.length a _ ha]
  · rw [count_pair_map, if_pos rfl]
  · intro i hi
    rw [count_pair_map, if_neg (fun h => hi h)]

theorem count_otNaivePairCalls (leaves : List (List Nat)) (a b : Nat)
    (ha : a < leaves.length) :
    (otNaivePairCalls leaves).count (a, b) = (leaves.getD a []).count b := by
  rw [otNaivePairCalls, count_flatMap]
  rw [sum_map_range_eq_single leaves.length a _ ha]
  · rw [count_pair_map, if_pos rfl]
  · intro i hi
    rw [count_pair_map, if_neg (fun h => hi h)]

theorem count_filter_lt (a b : Nat) (l : List Nat) :
    (l.filter (fun j => decide (a < j))).count b =
      if a < b then l.count b else 0 := by
  induction l with
  | nil => simp
  | cons c l ih =>
    by_cases hc : a < c
    · rw [List.filter_cons_of_pos (by simpa using hc), List.count_cons, ih,
        List.count_cons]
      by_cases hb : c = b
      · subst hb
        simp [hc]
      · simp [hb]
    · rw [List.filter_cons_of_neg (by simpa using hc), ih, List.count_cons]
      by_cases hb : c = b
      · subst hb
        simp [hc]
      · simp [hb]

/-- C1 (amended): over the owned octree leaves with `assignIDs`-numbering,
each leaf is handed to `processCell` exactly once by either traversal; for
any two distinct mutually-cached neighbour leaves, the `ot_c18` traversal
invokes `processCellPair` on the unordered pair exactly once (from the
smaller ID's side), while the naive traversal — whose `alreadyProcessed`
check is commented out — invokes it exactly twice, once in each order. -/
theorem octreeTraversal_pair_dispatch (leaves : List (List Nat)) (a b : Nat)
    (ha : a < leaves.length) (hb : b < leaves.length) (hab : a ≠ b)
    (hnb : b ∈ leaves.getD a []) (hnb' : a ∈ leaves.getD b [])
    (hnd : (leaves.getD a []).Nodup) (hnd' : (leaves.getD b []).Nodup) :
    pairCallCount (otc18PairCalls leaves) a b = 1 ∧
      pairCallCount (otNaivePairCalls leaves) a b = 2 ∧
      (otSelfCalls leaves).count a = 1 := by
  have hca : (leaves.getD a []).count b = 1 :=
    List.count_eq_one_of_mem hnd hnb
  have hcb : (leaves.getD b []).count a = 1 :=
    List.count_eq_one_of_mem hnd' hnb'
  refine ⟨?_, ?_, ?_⟩
  · rw [pairCallCount, count_otc18PairCalls leaves a b ha,
      count_otc18PairCalls leaves b a hb, count_filter_lt, count_filter_lt,
      hca, hcb]
    rcases Nat.lt_or_ge a b with h | h
    · rw [if_pos h, if_neg (by omega)]
    · rw [if_neg (by omega), if_pos (by omega)]
  · rw [pairCallCount, count_otNaivePairCalls leaves a b ha,
      count_otNaivePairCalls leaves b a hb, hca, hcb]
  · exact List.count_eq_one_of_mem (List.nodup_range _)
      (List.mem_range.mpr ha)

/-- Witness for C1: the two-leaf octree in which each leaf caches the other
as neighbour. -/
theorem octreeTraversal_pair_dispatch_witness :
    pairCallCount (otc18PairCalls [[1], [0]]) 0 1 = 1 ∧
      pairCallCount (otNaivePairCalls [[1], [0]]) 0 1 = 2 ∧
      (otSelfCalls [[1], [0]]).count 0 = 1 :=
  octreeTraversal_pair_dispatch [[1], [0]] 0 1 (by decide) (by decide)
    (by decide) (by decide) (by decide) (by decide) (by decide)

/-- C1 counterexample: on the concrete octree with two mutually-neighbouring
leaves the naive traversal invokes the functor on the unordered leaf pair
`{0, 1}` twice — once per order — not exactly once as the claim states for
the naive traversal under Newton-3. -/
theorem otNaive_processes_pair_twice :
    pairCallCount (otNaivePairCalls [[1], [0]]) 0 1 = 2 ∧ (2 : Nat) ≠ 1 := by
  constructor
  · rfl
  · decide

/-! ## `AutoPasConfigurationCommunicator`: search-space size and
`distributeConfigurations` (C8)

Options are encoded as naturals.  `allCompatibleTraversals` and
`getApplicableLoadEstimators` live in headers that are not part of the
sources here, so they are taken as function parameters. -/

/-- A tuner configuration tuple (cell-size factors appear by index into the
materialised factor set). -/
structure Configuration where
  container : Nat
  cellSizeFactorIdx : Nat
  traversal : Nat
  loadEstimator : Nat
  dataLayout : Nat
  newton3 : Nat
deriving DecidableEq, Repr

/-- `getSearchSpaceSize`: for every allowed container, intersect the allowed
traversals with the container-compatible ones, and accumulate
`cellSizeFactorArraySize * |applicable load estimators| * |data layouts| *
|newton3 options|`. -/
def getSearchSpaceSize (compat : Nat → List Nat)
    (applicableLoadEstimators : Nat → Nat → List Nat → List Nat)
    (containerOptions : List Nat) (cellSizeFactorArraySize : Nat)
    (traversalOptions loadEstimatorOptions dataLayoutOptions
      newton3Options : List Nat) : Nat :=
  (containerOptions.map fun containerOption =>
    ((traversalOptions.filter fun t =>
        decide (t ∈ compat containerOption)).map fun traversalOption =>
      cellSizeFactorArraySize *
        (applicableLoadEstimators containerOption traversalOption
          loadEstimatorOptions).length *
        dataLayoutOptions.length * newton3Options.length).sum).sum

/-- The configurations the search-space size counts: every allowed container,
every compatible allowed traversal, every cell-size factor index, applicable
load estimator, data layout and Newton-3 option. -/
def enumerateConfigs (compat : Nat → List Nat)
    (applicableLoadEstimators : Nat → Nat → List Nat → List Nat)
    (containerOptions : List Nat) (cellSizeFactorArraySize : Nat)
    (traversalOptions loadEstimatorOptions dataLayoutOptions
      newton3Options : List Nat) : List Configuration :=
  containerOptions.flatMap fun c =>
    (traversalOptions.filter fun t => decide (t ∈ compat c)).flatMap fun t =>
      (List.range cellSizeFactorArraySize).flatMap fun csf =>
        (applicableLoadEstimators c t loadEstimatorOptions).flatMap fun le =>
          dataLayoutOptions.flatMap fun dl =>
            newton3Options.map fun n3 =>
              (⟨c, csf, t, le, dl, n3⟩ : Configuration)

theorem length_flatMap_eq_sum {α β : Type} (l : List α) (f : α → List β) :
    (l.flatMap f).length = (l.map fun a => (f a).length).sum := by
  induction l with
  | nil => rfl
  | cons a l ih => simp [ih]

theorem sum_map_const_nat {α : Type} (l : List α) (c : Nat) :
    (l.map fun _ => c).sum = l.length * c := by
  induction l with
  | nil => simp
  | cons a l ih =>
    simp only [List.map_cons, List.sum_cons, ih, List.length_cons]
    rw [Nat.succ_mul, Nat.add_comm]

/-- The accumulation in `getSearchSpaceSize` counts exactly the enumerated
configurations. -/
theorem enumerateConfigs_length (compat : Nat → List Nat)
    (apple : Nat → Nat → List Nat → List Nat)
    (containers : List Nat) (csfSize : Nat)
    (travs les dls n3s : List Nat) :
    (enumerateConfigs compat apple containers csfSize travs les dls
        n3s).length
      = getSearchSpaceSize compat apple containers csfSize travs les dls
          n3s := by
  unfold enumerateConfigs getSearchSpaceSize
  induction containers with
  | nil => rfl
  | cons c cs ih =>
    simp only [List.flatMap_cons, List.length_append, List.map_cons,
      List.sum_cons, ih]
    congr 1
    rw [length_flatMap_eq_sum]
    refine congrArg List.sum (List.map_congr_left ?_)
    intro t _
    have h3 : ∀ csf le,
        ((dls.flatMap fun dl => n3s.map fun n3 =>
          (⟨c, csf, t, le, dl, n3⟩ : Configuration)).length)
          = dls.length * n3s.length := by
      intro csf le
      rw [length_flatMap_eq_sum]
      have hmap : (dls.map fun dl => (n3s.map fun n3 =>
          (⟨c, csf, t, le, dl, n3⟩ : Configuration)).length)
          = dls.map fun _ => n3s.length :=
        List.map_congr_left fun dl _ => by rw [List.length_map]
      rw [hmap, sum_map_const_nat]
    have h2 : ∀ csf,
        (((apple c t les).flatMap fun le =>
          dls.flatMap fun dl => n3s.map fun n3 =>
            (⟨c, csf, t, le, dl, n3⟩ : Configuration)).length)
          = (apple c t les).length * (dls.length * n3s.length) := by
      intro csf
      rw [length_flatMap_eq_sum]
      have hmap : ((apple c t les).map fun le => ((dls.flatMap fun dl =>
          n3s.map fun n3 => (⟨c, csf, t, le, dl, n3⟩ : Configuration))).length)
          = (apple c t les).map fun _ => dls.length * n3s.length :=
        List.map_congr_left fun le _ => h3 csf le
      rw [hmap, sum_map_const_nat]
    rw [length_flatMap_eq_sum]
    have hmap : ((List.range csfSize).map fun csf =>
        (((apple c t les).flatMap fun le => dls.flatMap fun dl =>
          n3s.map fun n3 => (⟨c, csf, t, le, dl, n3⟩ : Configuration))).length)
        = (List.range csfSize).map fun _ =>
            (apple c t les).length * (dls.length * n3s.length) :=
      List.map_congr_left fun csf _ => h2 csf
    rw [hmap, sum_map_const_nat, List.length_range]
    ring

/-- Modelled from the spec: `generateDistribution` relies on
`ConfigurationAndRankIteratorHandler` (not under src/), which walks the
enumerated configurations while advancing a rank iterator, so that the
search space is partitioned across ranks; modelled as the contiguous block
split in which rank `r` keeps the configurations at indices `i` with
`i * commSize / numConfigs = r`. -/
def generateDistribution (numConfigs commSize rank : Nat)
    (configs : List Configuration) : List Configuration :=
  (configs.enum.filter fun p =>
    decide (p.1 * commSize / numConfigs = rank)).map fun p => p.2

/-- `distributeConfigurations`: compute the search-space size, raise
`"Could not generate valid configurations, aborting"` when it is zero,
otherwise hand the enumerated configurations to the distribution. -/
def distributeConfigurations (compat : Nat → List Nat)
    (apple : Nat → Nat → List Nat → List Nat)
    (containers : List Nat) (csfSize : Nat)
    (travs les dls n3s : List Nat) (rank commSize : Nat) :
    CallResult (List Configuration) :=
  let numConfigs :=
    getSearchSpaceSize compat apple containers csfSize travs les dls n3s
  if numConfigs = 0 then
    .exception "Could not generate valid configurations, aborting"
  else
    .ok (generateDistribution numConfigs commSize rank
      (enumerateConfigs compat apple containers csfSize travs les dls n3s))

/-- C8: `distributeConfigurations` raises iff the search-space size — which
counts exactly the enumerated (container, compatible traversal, cell-size
factor, applicable load estimator, data layout, newton3) tuples — is zero;
for a non-empty space it returns the rank's partition without error. -/
theorem distributeConfigurations_spec (compat : Nat → List Nat)
    (apple : Nat → Nat → List Nat → List Nat)
    (containers : List Nat) (csfSize : Nat)
    (travs les dls n3s : List Nat) (rank commSize : Nat) :
    ((distributeConfigurations compat apple containers csfSize travs les dls
        n3s rank commSize).isException = true ↔
      getSearchSpaceSize compat apple containers csfSize travs les dls n3s
        = 0) ∧
    (getSearchSpaceSize compat apple containers csfSize travs les dls n3s = 0
      ↔ enumerateConfigs compat apple containers csfSize travs les dls n3s
        = []) ∧
    (getSearchSpaceSize compat apple containers csfSize travs les dls n3s ≠ 0
      → distributeConfigurations compat apple containers csfSize travs les
          dls n3s rank commSize
        = .ok (generateDistribution
            (getSearchSpaceSize compat apple containers csfSize travs les dls
              n3s) commSize rank
            (enumerateConfigs compat apple containers csfSize travs les dls
              n3s))) := by
  refine ⟨?_, ?_, ?_⟩
  · by_cases h : getSearchSpaceSize compat apple containers csfSize travs les
        dls n3s = 0 <;>
      simp [distributeConfigurations, h, CallResult.isException]
  · rw [← enumerateConfigs_length compat apple containers csfSize travs les
      dls n3s]
    exact List.length_eq_zero
  · intro h
    simp [distributeConfigurations, h]

/-- Witness for C8: a one-point search space (one container whose single
allowed traversal is compatible, one cell-size factor, load estimator, data
layout and newton3 option) has size one and is distributed without error. -/
theorem distributeConfigurations_spec_witness :
    getSearchSpaceSize (fun _ => [0]) (fun _ _ l => l) [0] 1 [0] [0] [0] [0]
      ≠ 0 ∧
    distributeConfigurations (fun _ => [0]) (fun _ _ l => l) [0] 1 [0] [0]
        [0] [0] 0 1
      = .ok (generateDistribution
          (getSearchSpaceSize (fun _ => [0]) (fun _ _ l => l) [0] 1 [0] [0]
            [0] [0]) 1 0
          (enumerateConfigs (fun _ => [0]) (fun _ _ l => l) [0] 1 [0] [0]
            [0] [0])) :=
  ⟨by decide,
   (distributeConfigurations_spec (fun _ => [0]) (fun _ _ l => l) [0] 1 [0]
     [0] [0] [0] 0 1).2.2 (by decide)⟩

/-! ## VerletClusterLists container state (C3, C6, C7, C10)

The container is modelled by its tower contents (lists of particles), the
pending `_particlesToAdd` buffer, the validity state, and the box bounds.
The tower xy-geometry is irrelevant to these claims. -/

structure VCLState where
  towers : List (List Particle)
  particlesToAdd : List Particle
  isValid : ValidityState
  boxMin : Vec3
  boxMax : Vec3
deriving Repr

/-- `Particle::setOwnershipState(OwnershipState::halo)`; the verlet-cluster
container reaches the same state through `setOwned(false)` (modelled from the
spec, `Particle.h` is not under src/: marking a particle as not owned makes
it a halo particle). -/
def setOwnershipHalo (p : Particle) : Particle :=
  { p with ownership := OwnershipState.halo }

/-- `VerletClusterLists::addParticleImpl`: invalidate and buffer the particle
in `_particlesToAdd`. -/
def vclAddParticleImpl (s : VCLState) (p : Particle) : VCLState :=
  { s with isValid := ValidityState.invalid,
           particlesToAdd := s.particlesToAdd ++ [p] }

/-- `VerletClusterLists::addHaloParticleImpl`: invalidate, copy the argument,
mark the copy as not owned, and buffer it. -/
def vclAddHaloParticleImpl (s : VCLState) (p : Particle) : VCLState :=
  { s with isValid := ValidityState.invalid,
           particlesToAdd := s.particlesToAdd ++ [setOwnershipHalo p] }

/-- Modelled from the spec: `VerletClusterListsRebuilder` is not under src/.
`rebuildTowersAndClusters` redistributes all non-dummy particles of the
towers together with the pending `_particlesToAdd` into the tower structure
(the xy-grid geometry and the dummy padding are abstracted into a single
tower), drains `_particlesToAdd`, and leaves the state
`cellsValidListsInvalid`. -/
def vclRebuildTowersAndClusters (s : VCLState) : VCLState :=
  { s with
    towers := [(s.towers.flatten.filter fun p =>
        !decide (p.ownership = OwnershipState.dummy)) ++ s.particlesToAdd],
    particlesToAdd := [],
    isValid := ValidityState.cellsValidListsInvalid }

/-- The rebuild-on-demand performed by the non-const
`VerletClusterLists::begin` (and `getRegionIterator`): rebuild the towers
when `_isValid == ValidityState::invalid`. -/
def vclBeginNonConst (s : VCLState) : VCLState :=
  if s.isValid = ValidityState.invalid then vclRebuildTowersAndClusters s
  else s

/-- `VerletClusterLists::deleteHaloParticles`: iterate with `haloOnly` (the
non-const `begin` rebuilds first when invalid), delete every halo particle,
and invalidate when something was deleted. -/
def vclDeleteHaloParticles (s : VCLState) : VCLState :=
  let s1 := vclBeginNonConst s
  let deletedSth := s1.towers.flatten.any fun p =>
    decide (p.ownership = OwnershipState.halo)
  { s1 with
    towers := s1.towers.map (List.filter fun p =>
      !decide (p.ownership = OwnershipState.halo)),
    isValid := if deletedSth then ValidityState.invalid else s1.isValid }

/-- `VerletClusterLists::updateContainer`: first `deleteHaloParticles`, then
iterate the owned particles (again rebuilding through the non-const `begin`
if needed), moving every owned particle outside `[boxMin, boxMax)` into the
returned vector and deleting it from the container; invalidate when any
particle left. -/
def vclUpdateContainer (s : VCLState) : VCLState × List Particle :=
  let s1 := vclDeleteHaloParticles s
  let s2 := vclBeginNonConst s1
  let leaves := s2.towers.flatten.filter fun p =>
    decide (p.ownership = OwnershipState.owned) &&
      !(inBox p.pos s.boxMin s.boxMax)
  ({ s2 with
      towers := s2.towers.map (List.filter fun p =>
        !(decide (p.ownership = OwnershipState.owned) &&
          !(inBox p.pos s.boxMin s.boxMax))),
      isValid := if leaves.isEmpty then s2.isValid
                 else ValidityState.invalid },
    leaves)

/-- `VerletClusterLists::getNumParticles`: sum of
`getNumActualParticles()` (non-dummy particles) over the towers plus the
pending `_particlesToAdd`. -/
def vclGetNumParticles (s : VCLState) : Nat :=
  (s.towers.map fun tower =>
    (tower.filter fun p =>
      !decide (p.ownership = OwnershipState.dummy)).length).sum
    + s.particlesToAdd.length

/-- The const `VerletClusterLists::begin`: raise when the container is valid
but `_particlesToAdd` is non-empty; otherwise return the particle sequence
the iterator visits (towers only when not invalid, towers plus the pending
adds when invalid; dummy particles are never visited — iterator semantics
modelled from the spec, `ParticleIterator.h` is not under src/). -/
def vclBeginConst (s : VCLState) : CallResult (List Particle) :=
  if s.isValid ≠ ValidityState.invalid then
    if ¬s.particlesToAdd.isEmpty then
      .exception "VerletClusterLists::begin() const: Error: particle container is valid, but _particlesToAdd isn't empty!"
    else
      .ok (s.towers.flatten.filter fun p =>
        !decide (p.ownership = OwnershipState.dummy))
  else
    .ok ((s.towers.flatten ++ s.particlesToAdd).filter fun p =>
      !decide (p.ownership = OwnershipState.dummy))

/-- `VerletClusterLists::deleteAllParticles`: invalidate, clear the pending
adds and every tower. -/
def vclDeleteAllParticles (s : VCLState) : VCLState :=
  { s with isValid := ValidityState.invalid,
           particlesToAdd := [],
           towers := s.towers.map fun _ => [] }

/-- `VerletClusterLists::notifyParticleDeleted`: invalidate. -/
def vclNotifyParticleDeleted (s : VCLState) : VCLState :=
  { s with isValid := ValidityState.invalid }

/-- The public operations that can touch `_particlesToAdd` or `_isValid`. -/
inductive VCLOp where
  | addParticle (p : Particle) : VCLOp
  | addHaloParticle (p : Particle) : VCLOp
  | rebuildTowersAndClusters : VCLOp
  | beginNonConst : VCLOp
  | deleteHaloParticles : VCLOp
  | updateContainer : VCLOp
  | deleteAllParticles : VCLOp
  | notifyParticleDeleted : VCLOp

def vclStep (s : VCLState) : VCLOp → VCLState
  | .addParticle p => vclAddParticleImpl s p
  | .addHaloParticle p => vclAddHaloParticleImpl s p
  | .rebuildTowersAndClusters => vclRebuildTowersAndClusters s
  | .beginNonConst => vclBeginNonConst s
  | .deleteHaloParticles => vclDeleteHaloParticles s
  | .updateContainer => (vclUpdateContainer s).1
  | .deleteAllParticles => vclDeleteAllParticles s
  | .notifyParticleDeleted => vclNotifyParticleDeleted s

/-- The freshly constructed container: one default tower, no pending adds,
`_isValid{ValidityState::invalid}`. -/
def vclInit (boxMin boxMax : Vec3) : VCLState :=
  ⟨[[]], [], ValidityState.invalid, boxMin, boxMax⟩

/-- The C6 invariant: pending adds force the invalid state. -/
def vclPendingInvariant (s : VCLState) : Prop :=
  s.particlesToAdd ≠ [] → s.isValid = ValidityState.invalid

/-! ## Octree container state (C3, C7, C10) -/

/-- The octree container: the owned-rooted tree and the halo-rooted tree as
particle multisets (`this->_cells[OWNED]` / `this->_cells[HALO]`), plus the
box bounds. -/
structure OctreeContainerState where
  ownedCell : List Particle
  haloCell : List Particle
  boxMin : Vec3
  boxMax : Vec3
deriving Repr

/-- All particles stored in the octree container. -/
def octreeParticles (s : OctreeContainerState) : List Particle :=
  s.ownedCell ++ s.haloCell

/-- `Octree::addHaloParticleImpl`: copy the argument, force
`OwnershipState::halo` on the copy, add it to the halo tree. -/
def octreeAddHaloParticleImpl (s : OctreeContainerState) (p : Particle) :
    OctreeContainerState :=
  { s with haloCell := s.haloCell ++ [setOwnershipHalo p] }

/-- `Octree::deleteHaloParticles`: clear the halo tree. -/
def octreeDeleteHaloParticles (s : OctreeContainerState) :
    OctreeContainerState :=
  { s with haloCell := [] }

/-- Modelled from the spec:
`LeavingParticleCollector::collectParticlesAndMarkNonOwnedAsDummy` is not
under src/.  It collects the owned particles that lie outside the box and
marks them, together with every halo particle, as dummies in place, keeping
the neighbor lists valid. -/
def collectParticlesAndMarkNonOwnedAsDummy (s : OctreeContainerState) :
    OctreeContainerState × List Particle :=
  let leaving := s.ownedCell.filter fun p =>
    decide (p.ownership = OwnershipState.owned) &&
      !(inBox p.pos s.boxMin s.boxMax)
  ({ s with
      ownedCell := s.ownedCell.map fun p =>
        if decide (p.ownership = OwnershipState.owned) &&
            !(inBox p.pos s.boxMin s.boxMax) then
          { p with ownership := OwnershipState.dummy }
        else p,
      haloCell := s.haloCell.map fun p =>
        if decide (p.ownership = OwnershipState.halo) then
          { p with ownership := OwnershipState.dummy }
        else p },
    leaving)

/-- `Octree::updateContainer`: with `keepNeighborListValid` delegate to the
leaving-particle collector; otherwise copy all particles out of the owned
tree (skipping dummies), report the ones outside `[boxMin, boxMax)`, clear
the container (`deleteAllParticles` clears both trees) and reinsert the
in-box ones into the owned tree. -/
def octreeUpdateContainer (s : OctreeContainerState)
    (keepNeighborListValid : Bool) : OctreeContainerState × List Particle :=
  if keepNeighborListValid then
    collectParticlesAndMarkNonOwnedAsDummy s
  else
    let nonDummy := s.ownedCell.filter fun p =>
      !decide (p.ownership = OwnershipState.dummy)
    let particles := nonDummy.filter fun p => inBox p.pos s.boxMin s.boxMax
    let invalidParticles := nonDummy.filter fun p =>
      !(inBox p.pos s.boxMin s.boxMax)
    ({ s with ownedCell := particles, haloCell := [] }, invalidParticles)

/-! ### C6: pending adds, validity, iterator semantics -/

theorem vclPendingInvariant_init (boxMin boxMax : Vec3) :
    vclPendingInvariant (vclInit boxMin boxMax) :=
  fun h => absurd rfl h

theorem vclPendingInvariant_rebuild (s : VCLState) :
    vclPendingInvariant (vclRebuildTowersAndClusters s) :=
  fun h => absurd rfl h

theorem vclPendingInvariant_beginNonConst (s : VCLState)
    (h : vclPendingInvariant s) :
    vclPendingInvariant (vclBeginNonConst s) := by
  unfold vclBeginNonConst
  split
  · exact vclPendingInvariant_rebuild s
  · exact h

theorem vclPendingInvariant_deleteHalo (s : VCLState)
    (h : vclPendingInvariant s) :
    vclPendingInvariant (vclDeleteHaloParticles s) := by
  have h1 := vclPendingInvariant_beginNonConst s h
  unfold vclDeleteHaloParticles
  intro hne
  simp only at hne ⊢
  split
  · rfl
  · exact h1 hne

theorem vclPendingInvariant_update (s : VCLState)
    (h : vclPendingInvariant s) :
    vclPendingInvariant (vclUpdateContainer s).1 := by
  have h2 := vclPendingInvariant_beginNonConst _
    (vclPendingInvariant_deleteHalo s h)
  unfold vclUpdateContainer
  intro hne
  simp only at hne ⊢
  split
  · exact h2 hne
  · rfl

theorem vclStep_preserves_invariant (s : VCLState) (op : VCLOp)
    (h : vclPendingInvariant s) : vclPendingInvariant (vclStep s op) := by
  cases op with
  | addParticle p => exact fun _ => rfl
  | addHaloParticle p => exact fun _ => rfl
  | rebuildTowersAndClusters => exact vclPendingInvariant_rebuild s
  | beginNonConst => exact vclPendingInvariant_beginNonConst s h
  | deleteHaloParticles => exact vclPendingInvariant_deleteHalo s h
  | updateContainer => exact vclPendingInvariant_update s h
  | deleteAllParticles => exact fun _ => rfl
  | notifyParticleDeleted => exact fun _ => rfl

theorem vclFoldl_invariant (ops : List VCLOp) :
    ∀ s : VCLState, vclPendingInvariant s →
      vclPendingInvariant (ops.foldl vclStep s) := by
  induction ops with
  | nil => exact fun s h => h
  | cons op ops ih =>
    intro s h
    exact ih (vclStep s op) (vclStep_preserves_invariant s op h)

/-- C6: `add`/`addHalo` buffer into `_particlesToAdd` and invalidate; the
buffer is drained exactly at a rebuild (which moves its particles into the
towers); on every state reachable from a fresh container, pending adds imply
the invalid state; `getNumParticles` counts the non-dummy tower particles
plus the pending adds; the const iterator over an invalid container includes
the pending adds, while over a non-invalid container with pending adds it
raises an exception. -/
theorem vclPendingAdds_spec :
    (∀ (s : VCLState) (p : Particle),
      (vclAddParticleImpl s p).particlesToAdd = s.particlesToAdd ++ [p] ∧
      (vclAddParticleImpl s p).isValid = ValidityState.invalid ∧
      (vclAddHaloParticleImpl s p).particlesToAdd
        = s.particlesToAdd ++ [setOwnershipHalo p] ∧
      (vclAddHaloParticleImpl s p).isValid = ValidityState.invalid) ∧
    (∀ s : VCLState,
      (vclRebuildTowersAndClusters s).particlesToAdd = [] ∧
      (vclRebuildTowersAndClusters s).towers.flatten
        = (s.towers.flatten.filter fun p =>
            !decide (p.ownership = OwnershipState.dummy))
          ++ s.particlesToAdd) ∧
    (∀ (boxMin boxMax : Vec3) (ops : List VCLOp),
      vclPendingInvariant (ops.foldl vclStep (vclInit boxMin boxMax))) ∧
    (∀ s : VCLState, vclGetNumParticles s
      = (s.towers.map fun tower =>
          (tower.filter fun p =>
            !decide (p.ownership = OwnershipState.dummy)).length).sum
        + s.particlesToAdd.length) ∧
    (∀ s : VCLState, s.isValid = ValidityState.invalid →
      vclBeginConst s
        = .ok ((s.towers.flatten ++ s.particlesToAdd).filter fun p =>
            !decide (p.ownership = OwnershipState.dummy))) ∧
    (∀ s : VCLState, s.isValid ≠ ValidityState.invalid →
      s.particlesToAdd ≠ [] → (vclBeginConst s).isException = true) := by
  refine ⟨fun s p => ⟨rfl, rfl, rfl, rfl⟩,
    fun s => ⟨rfl, by simp [vclRebuildTowersAndClusters]⟩,
    fun boxMin boxMax ops =>
      vclFoldl_invariant ops _ (vclPendingInvariant_init boxMin boxMax),
    fun s => rfl, ?_, ?_⟩
  · intro s h
    simp [vclBeginConst, h]
  · intro s h1 h2
    have hemp : s.particlesToAdd.isEmpty = false := by
      cases hl : s.particlesToAdd with
      | nil => exact absurd hl h2
      | cons a l => rfl
    simp [vclBeginConst, h1, hemp, CallResult.isException]

/-- Witness for C6: a single `addParticle` into a fresh container leaves the
invariant intact, and a const iterator over a concrete
`cellsValidListsInvalid` container with one pending add raises. -/
theorem vclPendingAdds_spec_witness :
    vclPendingInvariant
      ([VCLOp.addParticle ⟨7, ⟨0, 0, 0⟩, ⟨0, 0, 0⟩, OwnershipState.owned⟩].foldl
        vclStep (vclInit ⟨0, 0, 0⟩ ⟨1, 1, 1⟩)) ∧
    (vclBeginConst
      ⟨[[]], [⟨7, ⟨0, 0, 0⟩, ⟨0, 0, 0⟩, OwnershipState.owned⟩],
        ValidityState.cellsValidListsInvalid, ⟨0, 0, 0⟩,
        ⟨1, 1, 1⟩⟩).isException = true := by
  constructor
  · exact vclPendingAdds_spec.2.2.1 ⟨0, 0, 0⟩ ⟨1, 1, 1⟩
      [VCLOp.addParticle ⟨7, ⟨0, 0, 0⟩, ⟨0, 0, 0⟩, OwnershipState.owned⟩]
  · exact vclPendingAdds_spec.2.2.2.2.2 _ (by decide) (by decide)

/-! ### C7: `deleteHalo` removes exactly the halo particles -/

theorem flatten_map_filter {α : Type} (q : α → Bool) (ts : List (List α)) :
    (ts.map (List.filter q)).flatten = ts.flatten.filter q := by
  induction ts with
  | nil => rfl
  | cons t ts ih =>
    simp only [List.map_cons, List.flatten_cons, List.filter_append, ih]

theorem owned_and_notHalo (p : Particle) :
    (decide (p.ownership = OwnershipState.owned) &&
      !decide (p.ownership = OwnershipState.halo))
      = decide (p.ownership = OwnershipState.owned) := by
  rcases p with ⟨pid, pos, vel, o⟩
  cases o <;> rfl

theorem owned_and_notDummy (p : Particle) :
    (decide (p.ownership = OwnershipState.owned) &&
      !decide (p.ownership = OwnershipState.dummy))
      = decide (p.ownership = OwnershipState.owned) := by
  rcases p with ⟨pid, pos, vel, o⟩
  cases o <;> rfl

theorem notDummy_notHalo_and_notDummy (p : Particle) :
    ((!decide (p.ownership = OwnershipState.dummy) &&
        !decide (p.ownership = OwnershipState.halo)) &&
      !decide (p.ownership = OwnershipState.dummy))
      = (!decide (p.ownership = OwnershipState.dummy) &&
          !decide (p.ownership = OwnershipState.halo)) := by
  rcases p with ⟨pid, pos, vel, o⟩
  cases o <;> rfl

theorem vclBeginNonConst_of_invalid {s : VCLState}
    (h : s.isValid = ValidityState.invalid) :
    vclBeginNonConst s = vclRebuildTowersAndClusters s := if_pos h

theorem vclBeginNonConst_of_valid {s : VCLState}
    (h : ¬s.isValid = ValidityState.invalid) :
    vclBeginNonConst s = s := if_neg h

theorem vclRebuild_flatten (s : VCLState) :
    (vclRebuildTowersAndClusters s).towers.flatten
      = (s.towers.flatten.filter fun p =>
          !decide (p.ownership = OwnershipState.dummy))
        ++ s.particlesToAdd := by
  unfold vclRebuildTowersAndClusters
  simp only [List.flatten_cons, List.flatten_nil, List.append_nil]

theorem vclDeleteHalo_flatten (s : VCLState) :
    (vclDeleteHaloParticles s).towers.flatten
      = (vclBeginNonConst s).towers.flatten.filter fun p =>
          !decide (p.ownership = OwnershipState.halo) := by
  unfold vclDeleteHaloParticles
  exact flatten_map_filter _ _

theorem vclDeleteHalo_toAdd (s : VCLState) :
    (vclDeleteHaloParticles s).particlesToAdd
      = (vclBeginNonConst s).particlesToAdd := rfl

theorem vclPending_empty_of_valid {s : VCLState} (hinv : vclPendingInvariant s)
    (h : ¬s.isValid = ValidityState.invalid) : s.particlesToAdd = [] := by
  by_cases he : s.particlesToAdd = []
  · exact he
  · exact absurd (hinv he) h

/-- C7: `deleteHalo` removes exactly the halo-tagged particles.  For the
verlet-cluster container (on a state satisfying the pending-adds invariant):
afterwards no halo particle remains, the owned particles are unchanged, and
the non-dummy content equals the previous non-dummy content minus the halo
particles.  For the octree (whose owned tree holds no halo particles and
whose halo tree holds only halo particles): afterwards no halo particle
remains, the owned tree is untouched, and the container content equals the
previous content minus the halo particles. -/
theorem deleteHalo_spec :
    (∀ s : VCLState, vclPendingInvariant s →
      (∀ p ∈ (vclDeleteHaloParticles s).towers.flatten
          ++ (vclDeleteHaloParticles s).particlesToAdd,
        p.ownership ≠ OwnershipState.halo) ∧
      ((vclDeleteHaloParticles s).towers.flatten
          ++ (vclDeleteHaloParticles s).particlesToAdd).filter
          (fun p => decide (p.ownership = OwnershipState.owned))
        = (s.towers.flatten ++ s.particlesToAdd).filter
            (fun p => decide (p.ownership = OwnershipState.owned)) ∧
      ((vclDeleteHaloParticles s).towers.flatten
          ++ (vclDeleteHaloParticles s).particlesToAdd).filter
          (fun p => !decide (p.ownership = OwnershipState.dummy))
        = (s.towers.flatten ++ s.particlesToAdd).filter
            (fun p => !decide (p.ownership = OwnershipState.dummy) &&
              !decide (p.ownership = OwnershipState.halo))) ∧
    (∀ s : OctreeContainerState,
      (∀ p ∈ s.ownedCell, p.ownership ≠ OwnershipState.halo) →
      (∀ p ∈ s.haloCell, p.ownership = OwnershipState.halo) →
      (∀ p ∈ (octreeDeleteHaloParticles s).ownedCell
          ++ (octreeDeleteHaloParticles s).haloCell,
        p.ownership ≠ OwnershipState.halo) ∧
      (octreeDeleteHaloParticles s).ownedCell = s.ownedCell ∧
      octreeParticles (octreeDeleteHaloParticles s)
        = (octreeParticles s).filter fun p =>
            !decide (p.ownership = OwnershipState.halo)) := by
  constructor
  · intro s hinv
    have hflat := vclDeleteHalo_flatten s
    have htoadd := vclDeleteHalo_toAdd s
    refine ⟨?_, ?_, ?_⟩
    · intro p hp
      rcases List.mem_append.mp hp with hp | hp
      · rw [hflat] at hp
        have := (List.mem_filter.mp hp).2
        simpa using this
      · rw [htoadd] at hp
        by_cases hv : s.isValid = ValidityState.invalid
        · rw [vclBeginNonConst_of_invalid hv] at hp
          cases hp
        · rw [vclBeginNonConst_of_valid hv,
            vclPending_empty_of_valid hinv hv] at hp
          cases hp
    · rw [List.filter_append, List.filter_append, hflat, htoadd,
        List.filter_filter]
      by_cases hv : s.isValid = ValidityState.invalid
      · rw [vclBeginNonConst_of_invalid hv, vclRebuild_flatten]
        have : (vclRebuildTowersAndClusters s).particlesToAdd = [] := rfl
        rw [this, List.filter_nil, List.append_nil, List.filter_append,
          List.filter_filter]
        congr 1
        · exact List.filter_congr fun p _ => by
            rcases p with ⟨pid, pos, vel, o⟩
            cases o <;> rfl
        · exact List.filter_congr fun p _ => owned_and_notHalo p
      · rw [vclBeginNonConst_of_valid hv,
          vclPending_empty_of_valid hinv hv]
        simp only [List.filter_nil, List.append_nil]
        exact List.filter_congr fun p _ => owned_and_notHalo p
    · rw [List.filter_append, List.filter_append, hflat, htoadd,
        List.filter_filter]
      by_cases hv : s.isValid = ValidityState.invalid
      · rw [vclBeginNonConst_of_invalid hv, vclRebuild_flatten]
        have : (vclRebuildTowersAndClusters s).particlesToAdd = [] := rfl
        rw [this, List.filter_nil, List.append_nil, List.filter_append,
          List.filter_filter]
        congr 1
        exact List.filter_congr fun p _ => by
          rcases p with ⟨pid, pos, vel, o⟩
          cases o <;> rfl
      · rw [vclBeginNonConst_of_valid hv,
          vclPending_empty_of_valid hinv hv]
        simp only [List.filter_nil, List.append_nil]
  · intro s hOwned hHalo
    refine ⟨?_, rfl, ?_⟩
    · intro p hp
      rw [octreeDeleteHaloParticles] at hp
      simp only [List.append_nil] at hp
      exact hOwned p hp
    · rw [octreeParticles, octreeParticles, octreeDeleteHaloParticles,
        List.filter_append]
      simp only [List.append_nil]
      have h1 : s.ownedCell.filter (fun p =>
          !decide (p.ownership = OwnershipState.halo)) = s.ownedCell := by
        refine List.filter_eq_self.mpr ?_
        intro p hp
        simpa using hOwned p hp
      have h2 : s.haloCell.filter (fun p =>
          !decide (p.ownership = OwnershipState.halo)) = [] := by
        refine List.filter_eq_nil_iff.mpr ?_
        intro p hp
        simp [hHalo p hp]
      rw [h1, h2, List.append_nil]

/-- A concrete owned particle, used by witnesses. -/
def pOwnedA : Particle := ⟨1, ⟨0, 0, 0⟩, ⟨0, 0, 0⟩, OwnershipState.owned⟩

/-- A concrete halo particle, used by witnesses. -/
def pHaloB : Particle := ⟨2, ⟨2, 0, 0⟩, ⟨0, 0, 0⟩, OwnershipState.halo⟩

/-- A concrete verlet-cluster container with one owned and one halo
particle in a tower. -/
def vclStateC7 : VCLState :=
  ⟨[[pOwnedA, pHaloB]], [], ValidityState.cellsValidListsInvalid,
    ⟨0, 0, 0⟩, ⟨1, 1, 1⟩⟩

/-- A concrete octree container with one owned and one halo particle. -/
def octStateC7 : OctreeContainerState :=
  ⟨[pOwnedA], [pHaloB], ⟨0, 0, 0⟩, ⟨1, 1, 1⟩⟩

/-- Witness for C7: concrete one-tower container holding one owned and one
halo particle, and a concrete octree holding one of each. -/
theorem deleteHalo_spec_witness :
    ((vclDeleteHaloParticles vclStateC7).towers.flatten
      ++ (vclDeleteHaloParticles vclStateC7).particlesToAdd).filter
        (fun p => decide (p.ownership = OwnershipState.owned))
      = (vclStateC7.towers.flatten ++ vclStateC7.particlesToAdd).filter
          (fun p => decide (p.ownership = OwnershipState.owned)) ∧
    octreeParticles (octreeDeleteHaloParticles octStateC7)
      = (octreeParticles octStateC7).filter fun p =>
          !decide (p.ownership = OwnershipState.halo) := by
  constructor
  · exact (deleteHalo_spec.1 vclStateC7 (fun h => absurd rfl h)).2.1
  · refine (deleteHalo_spec.2 octStateC7 ?_ ?_).2.2
    · intro p hp
      rw [octStateC7] at hp
      simp only [List.mem_singleton] at hp
      rw [hp, pOwnedA]
      simp
    · intro p hp
      rw [octStateC7] at hp
      simp only [List.mem_singleton] at hp
      rw [hp, pHaloB]

/-! ### C3: `updateContainer` post-conditions -/

theorem mem_vclBeginNonConst_flatten {s : VCLState} {p : Particle}
    (hp : p ∈ (vclBeginNonConst s).towers.flatten) :
    p ∈ s.towers.flatten ++ s.particlesToAdd := by
  by_cases hv : s.isValid = ValidityState.invalid
  · rw [vclBeginNonConst_of_invalid hv, vclRebuild_flatten] at hp
    rcases List.mem_append.mp hp with hp | hp
    · exact List.mem_append.mpr (Or.inl (List.mem_filter.mp hp).1)
    · exact List.mem_append.mpr (Or.inr hp)
  · rw [vclBeginNonConst_of_valid hv] at hp
    exact List.mem_append.mpr (Or.inl hp)

theorem mem_vclBeginNonConst_toAdd {s : VCLState} {p : Particle}
    (hp : p ∈ (vclBeginNonConst s).particlesToAdd) :
    p ∈ s.particlesToAdd := by
  by_cases hv : s.isValid = ValidityState.invalid
  · rw [vclBeginNonConst_of_invalid hv] at hp
    cases hp
  · rw [vclBeginNonConst_of_valid hv] at hp
    exact hp

theorem mem_vclDeleteHalo_flatten {s : VCLState} {p : Particle}
    (hp : p ∈ (vclDeleteHaloParticles s).towers.flatten) :
    p ∈ s.towers.flatten ++ s.particlesToAdd := by
  rw [vclDeleteHalo_flatten] at hp
  exact mem_vclBeginNonConst_flatten (List.mem_filter.mp hp).1

theorem mem_vclUpdate_source {s : VCLState} {p : Particle}
    (hp : p ∈ (vclBeginNonConst (vclDeleteHaloParticles s)).towers.flatten) :
    p ∈ s.towers.flatten ++ s.particlesToAdd := by
  rcases List.mem_append.mp (mem_vclBeginNonConst_flatten hp) with hp' | hp'
  · exact mem_vclDeleteHalo_flatten hp'
  · rw [vclDeleteHalo_toAdd] at hp'
    exact List.mem_append.mpr (Or.inr (mem_vclBeginNonConst_toAdd hp'))

theorem vclUpdate_snd (s : VCLState) :
    (vclUpdateContainer s).2
      = (vclBeginNonConst (vclDeleteHaloParticles s)).towers.flatten.filter
          fun p => decide (p.ownership = OwnershipState.owned) &&
            !(inBox p.pos s.boxMin s.boxMax) := rfl

theorem vclUpdate_fst_flatten (s : VCLState) :
    (vclUpdateContainer s).1.towers.flatten
      = (vclBeginNonConst (vclDeleteHaloParticles s)).towers.flatten.filter
          fun p => !(decide (p.ownership = OwnershipState.owned) &&
            !(inBox p.pos s.boxMin s.boxMax)) := by
  unfold vclUpdateContainer
  exact flatten_map_filter _ _

theorem vclUpdate_fst_toAdd (s : VCLState) :
    (vclUpdateContainer s).1.particlesToAdd
      = (vclBeginNonConst (vclDeleteHaloParticles s)).particlesToAdd := rfl

theorem vclUpdate_toAdd_empty {s : VCLState} (hinv : vclPendingInvariant s) :
    (vclBeginNonConst (vclDeleteHaloParticles s)).particlesToAdd = [] := by
  have h1 := vclPendingInvariant_deleteHalo s hinv
  by_cases hv : (vclDeleteHaloParticles s).isValid = ValidityState.invalid
  · rw [vclBeginNonConst_of_invalid hv]
    rfl
  · rw [vclBeginNonConst_of_valid hv]
    exact vclPending_empty_of_valid h1 hv

/-- C3: post-conditions of `updateContainer`.  For the verlet-cluster
container (on a state satisfying the pending-adds invariant) and for the
octree in both its `keepNeighborListValid` modes (under the tree-content
invariants the add paths establish): every returned particle is owned, lies
outside `[boxMin, boxMax)` and was stored in the container before the call;
every owned particle still stored lies inside the box; and no returned
particle remains in the container. -/
theorem updateContainer_spec :
    (∀ s : VCLState, vclPendingInvariant s →
      (∀ p ∈ (vclUpdateContainer s).2,
        p.ownership = OwnershipState.owned ∧
        inBox p.pos s.boxMin s.boxMax = false ∧
        p ∈ s.towers.flatten ++ s.particlesToAdd) ∧
      (∀ p ∈ (vclUpdateContainer s).1.towers.flatten,
        p.ownership = OwnershipState.owned →
          inBox p.pos s.boxMin s.boxMax = true) ∧
      (∀ p ∈ (vclUpdateContainer s).2,
        p ∉ (vclUpdateContainer s).1.towers.flatten
          ++ (vclUpdateContainer s).1.particlesToAdd)) ∧
    (∀ s : OctreeContainerState,
      (∀ p ∈ s.ownedCell, p.ownership = OwnershipState.owned ∨
        p.ownership = OwnershipState.dummy) →
      (∀ p ∈ (octreeUpdateContainer s false).2,
        p.ownership = OwnershipState.owned ∧
        inBox p.pos s.boxMin s.boxMax = false ∧
        p ∈ octreeParticles s) ∧
      (∀ p ∈ (octreeUpdateContainer s false).1.ownedCell
          ++ (octreeUpdateContainer s false).1.haloCell,
        p.ownership = OwnershipState.owned →
          inBox p.pos s.boxMin s.boxMax = true) ∧
      (∀ p ∈ (octreeUpdateContainer s false).2,
        p ∉ (octreeUpdateContainer s false).1.ownedCell
          ++ (octreeUpdateContainer s false).1.haloCell)) ∧
    (∀ s : OctreeContainerState,
      (∀ p ∈ s.haloCell, p.ownership = OwnershipState.halo ∨
        p.ownership = OwnershipState.dummy) →
      (∀ p ∈ (octreeUpdateContainer s true).2,
        p.ownership = OwnershipState.owned ∧
        inBox p.pos s.boxMin s.boxMax = false ∧
        p ∈ octreeParticles s) ∧
      (∀ p ∈ (octreeUpdateContainer s true).1.ownedCell
          ++ (octreeUpdateContainer s true).1.haloCell,
        p.ownership = OwnershipState.owned →
          inBox p.pos s.boxMin s.boxMax = true) ∧
      (∀ p ∈ (octreeUpdateContainer s true).2,
        p ∉ (octreeUpdateContainer s true).1.ownedCell
          ++ (octreeUpdateContainer s true).1.haloCell)) := by
  refine ⟨?_, ?_, ?_⟩
  · intro s hinv
    refine ⟨?_, ?_, ?_⟩
    · intro p hp
      rw [vclUpdate_snd] at hp
      obtain ⟨hmem, hcond⟩ := List.mem_filter.mp hp
      simp only [Bool.and_eq_true, decide_eq_true_eq, Bool.not_eq_true'] at hcond
      exact ⟨hcond.1, hcond.2, mem_vclUpdate_source hmem⟩
    · intro p hp howned
      rw [vclUpdate_fst_flatten] at hp
      have hcond := (List.mem_filter.mp hp).2
      simp only [Bool.not_eq_true', Bool.and_eq_false_iff,
        decide_eq_false_iff_not, Bool.not_eq_false] at hcond
      rcases hcond with hcond | hcond
      · exact absurd howned hcond
      · simpa using hcond
    · intro p hp hp'
      rw [vclUpdate_snd] at hp
      have hcond := (List.mem_filter.mp hp).2
      rcases List.mem_append.mp hp' with hp' | hp'
      · rw [vclUpdate_fst_flatten] at hp'
        have hcond' := (List.mem_filter.mp hp').2
        rw [hcond] at hcond'
        cases hcond'
      · rw [vclUpdate_fst_toAdd, vclUpdate_toAdd_empty hinv] at hp'
        cases hp'
  · intro s hOwn
    have hsnd : (octreeUpdateContainer s false).2
        = (s.ownedCell.filter fun p =>
            !decide (p.ownership = OwnershipState.dummy)).filter fun p =>
          !(inBox p.pos s.boxMin s.boxMax) := rfl
    have hfst : (octreeUpdateContainer s false).1.ownedCell
        = (s.ownedCell.filter fun p =>
            !decide (p.ownership = OwnershipState.dummy)).filter fun p =>
          inBox p.pos s.boxMin s.boxMax := rfl
    have hhalo : (octreeUpdateContainer s false).1.haloCell = [] := rfl
    refine ⟨?_, ?_, ?_⟩
    · intro p hp
      rw [hsnd] at hp
      obtain ⟨hmem, hout⟩ := List.mem_filter.mp hp
      obtain ⟨hmem', hnd⟩ := List.mem_filter.mp hmem
      simp only [Bool.not_eq_true', decide_eq_false_iff_not] at hnd hout
      have howned : p.ownership = OwnershipState.owned := by
        rcases hOwn p hmem' with h | h
        · exact h
        · exact absurd h hnd
      exact ⟨howned, hout,
        List.mem_append.mpr (Or.inl hmem')⟩
    · intro p hp _
      rw [hfst, hhalo, List.append_nil] at hp
      exact (List.mem_filter.mp hp).2
    · intro p hp hp'
      rw [hsnd] at hp
      have hout := (List.mem_filter.mp hp).2
      rw [hfst, hhalo, List.append_nil] at hp'
      have hin := (List.mem_filter.mp hp').2
      rw [hin] at hout
      cases hout
  · intro s hHalo
    have hsnd : (octreeUpdateContainer s true).2
        = s.ownedCell.filter fun p =>
            decide (p.ownership = OwnershipState.owned) &&
              !(inBox p.pos s.boxMin s.boxMax) := rfl
    have hfst : (octreeUpdateContainer s true).1.ownedCell
        = s.ownedCell.map fun p =>
            if decide (p.ownership = OwnershipState.owned) &&
                !(inBox p.pos s.boxMin s.boxMax) then
              { p with ownership := OwnershipState.dummy }
            else p := rfl
    have hhalo : (octreeUpdateContainer s true).1.haloCell
        = s.haloCell.map fun p =>
            if decide (p.ownership = OwnershipState.halo) then
              { p with ownership := OwnershipState.dummy }
            else p := rfl
    refine ⟨?_, ?_, ?_⟩
    · intro p hp
      rw [hsnd] at hp
      obtain ⟨hmem, hcond⟩ := List.mem_filter.mp hp
      simp only [Bool.and_eq_true, decide_eq_true_eq, Bool.not_eq_true']
        at hcond
      exact ⟨hcond.1, hcond.2, List.mem_append.mpr (Or.inl hmem)⟩
    · intro p hp howned
      rcases List.mem_append.mp hp with hp | hp
      · rw [hfst] at hp
        obtain ⟨q, hq, hqeq⟩ := List.mem_map.mp hp
        by_cases hc : (decide (q.ownership = OwnershipState.owned) &&
            !(inBox q.pos s.boxMin s.boxMax)) = true
        · rw [if_pos hc] at hqeq
          rw [← hqeq] at howned
          cases howned
        · rw [if_neg hc] at hqeq
          subst hqeq
          simp only [Bool.and_eq_true, decide_eq_true_eq,
            Bool.not_eq_true', not_and] at hc
          have := hc howned
          simp only [Bool.not_eq_false] at this
          exact this
      · rw [hhalo] at hp
        obtain ⟨q, hq, hqeq⟩ := List.mem_map.mp hp
        by_cases hc : decide (q.ownership = OwnershipState.halo) = true
        · rw [if_pos hc] at hqeq
          rw [← hqeq] at howned
          cases howned
        · rw [if_neg hc] at hqeq
          subst hqeq
          simp only [decide_eq_true_eq] at hc
          rcases hHalo q hq with h | h
          · exact absurd h hc
          · rw [h] at howned
            cases howned
    · intro p hp hp'
      rw [hsnd] at hp
      obtain ⟨hmem, hcond⟩ := List.mem_filter.mp hp
      simp only [Bool.and_eq_true, decide_eq_true_eq, Bool.not_eq_true']
        at hcond
      rcases List.mem_append.mp hp' with hp' | hp'
      · rw [hfst] at hp'
        obtain ⟨q, hq, hqeq⟩ := List.mem_map.mp hp'
        by_cases hc : (decide (q.ownership = OwnershipState.owned) &&
            !(inBox q.pos s.boxMin s.boxMax)) = true
        · rw [if_pos hc] at hqeq
          have : p.ownership = OwnershipState.dummy := by
            rw [← hqeq]
          rw [hcond.1] at this
          cases this
        · rw [if_neg hc] at hqeq
          subst hqeq
          simp only [Bool.and_eq_true, decide_eq_true_eq,
            Bool.not_eq_true', not_and] at hc
          have := hc hcond.1
          simp only [Bool.not_eq_false] at this
          rw [this] at hcond
          cases hcond.2
      · rw [hhalo] at hp'
        obtain ⟨q, hq, hqeq⟩ := List.mem_map.mp hp'
        by_cases hc : decide (q.ownership = OwnershipState.halo) = true
        · rw [if_pos hc] at hqeq
          have : p.ownership = OwnershipState.dummy := by
            rw [← hqeq]
          rw [hcond.1] at this
          cases this
        · rw [if_neg hc] at hqeq
          subst hqeq
          simp only [decide_eq_true_eq] at hc
          rcases hHalo q hq with h | h
          · exact absurd h hc
          · rw [h] at hcond
            cases hcond.1

/-- A concrete owned particle outside the unit box, used by witnesses. -/
def pLeaverC : Particle := ⟨3, ⟨5, 0, 0⟩, ⟨0, 0, 0⟩, OwnershipState.owned⟩

/-- A concrete verlet-cluster container with one in-box owned particle and
one owned particle outside the box. -/
def vclStateC3 : VCLState :=
  ⟨[[pOwnedA, pLeaverC]], [], ValidityState.cellsValidListsInvalid,
    ⟨0, 0, 0⟩, ⟨1, 1, 1⟩⟩

/-- Witness for C3: on the concrete container, every returned leaver is
owned, out of the box, came from the container, and is gone afterwards. -/
theorem updateContainer_spec_witness :
    (∀ p ∈ (vclUpdateContainer vclStateC3).2,
      p.ownership = OwnershipState.owned ∧
      inBox p.pos vclStateC3.boxMin vclStateC3.boxMax = false ∧
      p ∈ vclStateC3.towers.flatten ++ vclStateC3.particlesToAdd) ∧
    (∀ p ∈ (vclUpdateContainer vclStateC3).2,
      p ∉ (vclUpdateContainer vclStateC3).1.towers.flatten
        ++ (vclUpdateContainer vclStateC3).1.particlesToAdd) := by
  have h := updateContainer_spec.1 vclStateC3 (fun h => absurd rfl h)
  exact ⟨h.1, h.2.2⟩

/-! ### C10: `addHalo` forces the halo ownership tag -/

/-- C10: for both containers, `addHaloParticleImpl` stores exactly one new
particle, a copy of the caller's argument whose ownership tag is forced to
`halo` whatever tag the argument carried; every other field is taken from
the argument, which itself is left untouched. -/
theorem addHalo_forces_halo :
    (∀ (s : OctreeContainerState) (p : Particle), ∃ q,
      (octreeAddHaloParticleImpl s p).haloCell = s.haloCell ++ [q] ∧
      (octreeAddHaloParticleImpl s p).ownedCell = s.ownedCell ∧
      q.ownership = OwnershipState.halo ∧
      q.pid = p.pid ∧ q.pos = p.pos ∧ q.vel = p.vel) ∧
    (∀ (s : VCLState) (p : Particle), ∃ q,
      (vclAddHaloParticleImpl s p).particlesToAdd
        = s.particlesToAdd ++ [q] ∧
      (vclAddHaloParticleImpl s p).towers = s.towers ∧
      q.ownership = OwnershipState.halo ∧
      q.pid = p.pid ∧ q.pos = p.pos ∧ q.vel = p.vel) :=
  ⟨fun _ p => ⟨setOwnershipHalo p, rfl, rfl, rfl, rfl, rfl, rfl⟩,
   fun _ p => ⟨setOwnershipHalo p, rfl, rfl, rfl, rfl, rfl, rfl⟩⟩

/-! ### C4: `ClusterTower::generateClusters` and `fillUpWithDummyParticles`

The tower's `FullParticleCell` is a particle list;
`VerletClusterLists::clusterSize = 4`. -/

/-- `VerletClusterLists::clusterSize`. -/
def clusterSize : Nat := 4

/-- `std::numeric_limits<size_t>::max()`, the ID given to the padding
dummies. -/
def sizeTMax : Nat := 18446744073709551615

/-- Fallback element for out-of-range list accesses in the model. -/
def defaultParticle : Particle :=
  ⟨0, ⟨0, 0, 0⟩, ⟨0, 0, 0⟩, OwnershipState.dummy⟩

/-- Modelled from the spec: `FullParticleCell::sortByDim(2)` is not under
src/; it sorts the tower's particles along the z axis. -/
def sortByZ (ps : List Particle) : List Particle :=
  List.insertionSort (fun a b => a.pos.z ≤ b.pos.z) ps

/-- `ClusterTower::generateClusters`: when the tower holds particles, sort
them by z, compute the number of padding slots of the last cluster, and
append that many copies of the last particle; returns the padded particle
list and `_numDummyParticles`. -/
def generateClusters (ps : List Particle) : List Particle × Nat :=
  if 0 < ps.length then
    let sorted := sortByZ ps
    let sizeLastCluster := sorted.length % clusterSize
    let numDummyParticles :=
      if sizeLastCluster ≠ 0 then clusterSize - sizeLastCluster else 0
    let lastParticle := sorted.getD (sorted.length - 1) defaultParticle
    (sorted ++ List.replicate numDummyParticles lastParticle,
      numDummyParticles)
  else (ps, 0)

/-- One padding dummy written by `fillUpWithDummyParticles`: a copy of the
source particle with ownership `dummy`, position
`{dummyStartX, 0, dummyDistZ * index}` and ID `size_t` max. -/
def mkTowerDummy (src : Particle) (dummyStartX dummyDistZ : ℚ)
    (index : Nat) : Particle :=
  { src with ownership := OwnershipState.dummy,
             pos := ⟨dummyStartX, 0, dummyDistZ * (index : ℚ)⟩,
             pid := sizeTMax }

/-- `ClusterTower::fillUpWithDummyParticles`: for `index` from 1 to
`_numDummyParticles`, overwrite slot `clusterSize - index` of the last
cluster — i.e. flat position `length - index` — with a dummy generated from
`lastCluster[0]`, the first particle of the last cluster (flat position
`length - clusterSize`). -/
def fillUpWithDummyParticles (ps : List Particle) (numDummy : Nat)
    (dummyStartX dummyDistZ : ℚ) : List Particle :=
  let lastClusterFirst := ps.getD (ps.length - clusterSize) defaultParticle
  (List.range ps.length).map fun i =>
    if ps.length - numDummy ≤ i then
      mkTowerDummy lastClusterFirst dummyStartX dummyDistZ (ps.length - i)
    else ps.getD i defaultParticle

theorem getD_map_range {α : Type} (L i : Nat) (f : Nat → α) (d : α)
    (h : i < L) : ((List.range L).map f).getD i d = f i := by
  rw [List.getD_eq_getElem?_getD, List.getElem?_map, List.getElem?_range h]
  rfl

theorem sortByZ_length (ps : List Particle) :
    (sortByZ ps).length = ps.length :=
  (List.perm_insertionSort _ ps).length_eq

theorem generateClusters_eq (ps : List Particle) (hne : ps ≠ [])
    (hmod : ps.length % 4 ≠ 0) :
    generateClusters ps
      = (sortByZ ps ++ List.replicate (4 - ps.length % 4)
          ((sortByZ ps).getD (ps.length - 1) defaultParticle),
         4 - ps.length % 4) := by
  have hpos : 0 < ps.length := List.length_pos.mpr hne
  unfold generateClusters clusterSize
  rw [if_pos hpos]
  simp only [sortByZ_length]
  rw [if_pos hmod]

/-- C4 (amended): for a tower with `n ≥ 1` particles, `n` not a multiple of
4: `generateClusters` records `4 - n % 4` padding slots and pads the z-sorted
particle list to length `4 * ⌈n/4⌉` (so the tower holds `⌈n/4⌉` clusters of 4
slots); after `fillUpWithDummyParticles(dummyStartX, dummyDistZ)` the first
`n` slots still hold the z-sorted real particles (non-dummy when the input
was), and exactly the last `4 - n % 4` slots hold padding dummies, each a
copy of the *first* particle of the last cluster with ownership `dummy`, ID
`size_t` max and position `(dummyStartX, 0, dummyDistZ·index)`. -/
theorem clusterTower_padding (ps : List Particle) (sx dz : ℚ)
    (hne : ps ≠ []) (hmod : ps.length % 4 ≠ 0) :
    (generateClusters ps).2 = 4 - ps.length % 4 ∧
    (generateClusters ps).1.length = 4 * ((ps.length + 3) / 4) ∧
    (fillUpWithDummyParticles (generateClusters ps).1 (generateClusters ps).2
        sx dz).length = (generateClusters ps).1.length ∧
    (∀ i, i < ps.length →
      (fillUpWithDummyParticles (generateClusters ps).1
          (generateClusters ps).2 sx dz).getD i defaultParticle
        = (sortByZ ps).getD i defaultParticle) ∧
    ((∀ p ∈ ps, p.ownership ≠ OwnershipState.dummy) →
      ∀ i, i < ps.length →
        ((fillUpWithDummyParticles (generateClusters ps).1
            (generateClusters ps).2 sx dz).getD i
          defaultParticle).ownership ≠ OwnershipState.dummy) ∧
    (∀ i, ps.length ≤ i → i < (generateClusters ps).1.length →
      (fillUpWithDummyParticles (generateClusters ps).1
          (generateClusters ps).2 sx dz).getD i defaultParticle
        = mkTowerDummy
            ((generateClusters ps).1.getD
              ((generateClusters ps).1.length - 4) defaultParticle)
            sx dz ((generateClusters ps).1.length - i)) := by
  have hgc := generateClusters_eq ps hne hmod
  have hslen := sortByZ_length ps
  have hlen1 : (generateClusters ps).1.length
      = ps.length + (4 - ps.length % 4) := by
    rw [hgc]
    simp [hslen]
  have hsub : (generateClusters ps).1.length - (generateClusters ps).2
      = ps.length := by
    rw [hlen1, hgc]
    show ps.length + (4 - ps.length % 4) - (4 - ps.length % 4) = ps.length
    omega
  have hgetDlt : ∀ i, i < ps.length →
      (generateClusters ps).1.getD i defaultParticle
        = (sortByZ ps).getD i defaultParticle := by
    intro i hi
    rw [hgc]
    simp only []
    rw [List.getD_eq_getElem?_getD, List.getD_eq_getElem?_getD,
      List.getElem?_append_left (by rw [hslen]; exact hi)]
    exact (List.getD_eq_getElem?_getD _ _ _).symm
  refine ⟨by rw [hgc], by rw [hlen1]; omega, ?_, ?_, ?_, ?_⟩
  · unfold fillUpWithDummyParticles
    simp
  · intro i hi
    unfold fillUpWithDummyParticles
    rw [getD_map_range _ i _ _ (by rw [hlen1]; omega)]
    rw [if_neg (by rw [hsub]; omega)]
    exact hgetDlt i hi
  · intro hclean i hi
    unfold fillUpWithDummyParticles
    rw [getD_map_range _ i _ _ (by rw [hlen1]; omega)]
    rw [if_neg (by rw [hsub]; omega)]
    rw [hgetDlt i hi]
    have hmem : (sortByZ ps).getD i defaultParticle ∈ sortByZ ps := by
      rw [List.getD_eq_getElem _ _ (by rw [hslen]; exact hi)]
      exact List.getElem_mem _
    exact hclean _ ((List.perm_insertionSort _ ps).mem_iff.mp hmem)
  · intro i hge hlt
    unfold fillUpWithDummyParticles
    rw [getD_map_range _ i _ _ hlt]
    rw [if_pos (by rw [hsub]; exact hge)]
    rfl

/-- A concrete two-particle tower: the z-lower particle has velocity
`(1,0,0)`, the z-higher (last real) particle has velocity `(2,0,0)`. -/
def psPadC4 : List Particle :=
  [⟨1, ⟨0, 0, 0⟩, ⟨1, 0, 0⟩, OwnershipState.owned⟩,
   ⟨2, ⟨0, 0, 1⟩, ⟨2, 0, 0⟩, OwnershipState.owned⟩]

/-- Witness for C4: the concrete two-particle tower is padded to one cluster
of four slots, and slot 3 is the dummy generated from the first particle of
the last cluster. -/
theorem clusterTower_padding_witness :
    (generateClusters psPadC4).2 = 4 - psPadC4.length % 4 ∧
    (generateClusters psPadC4).1.length = 4 * ((psPadC4.length + 3) / 4) ∧
    (fillUpWithDummyParticles (generateClusters psPadC4).1
        (generateClusters psPadC4).2 5 1).getD 3 defaultParticle
      = mkTowerDummy
          ((generateClusters psPadC4).1.getD
            ((generateClusters psPadC4).1.length - 4) defaultParticle)
          5 1 ((generateClusters psPadC4).1.length - 3) := by
  have h := clusterTower_padding psPadC4 5 1 (by decide) (by decide)
  exact ⟨h.1, h.2.1, h.2.2.2.2.2 3 (by decide) (by decide)⟩

/-- C4 counterexample: in the concrete two-particle tower the padding slot
holds velocity `(1,0,0)` — it was generated from the *first* particle of the
last cluster — while the last real particle carries velocity `(2,0,0)`; so
the padding is not a copy generated from the last real particle as the claim
states. -/
theorem clusterTower_padding_counterexample :
    ((fillUpWithDummyParticles (generateClusters psPadC4).1
        (generateClusters psPadC4).2 5 1).getD 3 defaultParticle).vel
      = ⟨1, 0, 0⟩ ∧
    ((sortByZ psPadC4).getD (psPadC4.length - 1) defaultParticle).vel
      = ⟨2, 0, 0⟩ ∧
    (⟨1, 0, 0⟩ : Vec3) ≠ ⟨2, 0, 0⟩ := by
  refine ⟨?_, ?_, by decide⟩ <;> decide

end AutoPasVerify
